import Mathlib

/-!
Verification development for thunar-gio-extensions.c, a set of thin wrappers
around the GIO virtual-filesystem library.  Each namespace embeds the facet of
the GIO interface that one group of functions observes, translated from the C
source, and proves the stated properties about the translated functions.
-/

namespace GioRef

/-- A GIO file handle at the level of its constructor: GIO builds handles
either from a local path (`g_file_new_for_path`) or from a URI
(`g_file_new_for_uri`). -/
inductive GFileRef where
  | forPath (p : String)
  | forUri (u : String)
deriving DecidableEq

/-- GIO constructor `g_file_new_for_path`. -/
def g_file_new_for_path (p : String) : GFileRef := GFileRef.forPath p

/-- GIO constructor `g_file_new_for_uri`. -/
def g_file_new_for_uri (u : String) : GFileRef := GFileRef.forUri u

/-- Modelled from the spec: GIO's `g_file_get_uri` is not part of this
repository.  Per the claim about the computer predicate, a handle built from a
scheme-only URI such as "computer://" (an authority with an empty path)
canonicalizes to the URI with path "/", i.e. "computer:///"; other URIs are
returned as given, and a path-based handle yields its "file://" URI. -/
def g_file_get_uri : GFileRef → String
  | GFileRef.forPath p => "file://" ++ p
  | GFileRef.forUri u => if u.toList.reverse.take 3 = ['/', '/', ':'] then u ++ "/" else u

/-- `thunar_g_file_new_for_home`: `g_file_new_for_path (xfce_get_homedir ())`.
The home directory string is an input from the environment. -/
def thunar_g_file_new_for_home (homedir : String) : GFileRef :=
  g_file_new_for_path homedir

/-- `thunar_g_file_new_for_root`. -/
def thunar_g_file_new_for_root : GFileRef := g_file_new_for_uri "file:///"

/-- `thunar_g_file_new_for_recent`. -/
def thunar_g_file_new_for_recent : GFileRef := g_file_new_for_uri "recent:///"

/-- `thunar_g_file_new_for_trash`. -/
def thunar_g_file_new_for_trash : GFileRef := g_file_new_for_uri "trash:///"

/-- `thunar_g_file_new_for_computer`. -/
def thunar_g_file_new_for_computer : GFileRef := g_file_new_for_uri "computer://"

/-- `thunar_g_file_new_for_network`. -/
def thunar_g_file_new_for_network : GFileRef := g_file_new_for_uri "network://"

/-- `thunar_g_file_is_trash`: compares the handle's URI with "trash:///"
(`g_strcmp0 (uri, "trash:///") == 0`). -/
def thunar_g_file_is_trash (file : GFileRef) : Bool :=
  g_file_get_uri file == "trash:///"

/-- `thunar_g_file_is_recent`: compares the handle's URI with "recent:///". -/
def thunar_g_file_is_recent (file : GFileRef) : Bool :=
  g_file_get_uri file == "recent:///"

/-- `thunar_g_file_is_computer`: compares the handle's URI with "computer:///". -/
def thunar_g_file_is_computer (file : GFileRef) : Bool :=
  g_file_get_uri file == "computer:///"

/-- `thunar_g_file_is_network`: compares the handle's URI with "network:///". -/
def thunar_g_file_is_network (file : GFileRef) : Bool :=
  g_file_get_uri file == "network:///"

end GioRef

namespace FreeSpace

/-- The filesystem info object `g_file_query_filesystem_info` returns: whether
the filesystem::free and filesystem::size attributes are present, and the
uint64 values `g_file_info_get_attribute_uint64` reads for them (that getter
returns 0 when the attribute is absent, which the model applies below). -/
structure FsInfo where
  hasFree : Bool
  freeVal : Nat
  hasSize : Bool
  sizeVal : Nat
deriving DecidableEq

/-- What `thunar_g_file_get_free_space` leaves behind: its boolean return and
the values written through the two out-parameters (`none` when the caller
passed a NULL pointer, so nothing was written). -/
structure FreeSpaceResult where
  success : Bool
  fsFree : Option Nat
  fsSize : Option Nat
deriving DecidableEq

/-- `thunar_g_file_get_free_space`, translated statement by statement:
`filesystemInfo` is the result of `g_file_query_filesystem_info` (`none`
models NULL), `fsFreeNonNull` / `fsSizeNonNull` say whether the caller passed
the out-parameters.  `success` starts FALSE and is assigned by each of the two
attribute checks in turn, so the second assignment overwrites the first. -/
def thunar_g_file_get_free_space (filesystemInfo : Option FsInfo)
    (fsFreeNonNull fsSizeNonNull : Bool) : FreeSpaceResult :=
  match filesystemInfo with
  | none => { success := false, fsFree := none, fsSize := none }
  | some info =>
    let success0 := false
    let freeOut := if fsFreeNonNull then some (if info.hasFree then info.freeVal else 0) else none
    let success1 := if fsFreeNonNull then info.hasFree else success0
    let sizeOut := if fsSizeNonNull then some (if info.hasSize then info.sizeVal else 0) else none
    let success2 := if fsSizeNonNull then info.hasSize else success1
    { success := success2, fsFree := freeOut, fsSize := sizeOut }

end FreeSpace

/-- C7: each pseudo-location constructor is a pure mapping from its symbolic
name to a fixed path or scheme string: home maps to a path handle for the
user's home directory, trash to the URI "trash:///", recent to "recent:///",
computer to "computer://", and network to "network://". -/
theorem pseudo_location_constructors_fixed (homedir : String) :
    GioRef.thunar_g_file_new_for_home homedir = GioRef.g_file_new_for_path homedir
    ∧ GioRef.thunar_g_file_new_for_trash = GioRef.g_file_new_for_uri "trash:///"
    ∧ GioRef.thunar_g_file_new_for_recent = GioRef.g_file_new_for_uri "recent:///"
    ∧ GioRef.thunar_g_file_new_for_computer = GioRef.g_file_new_for_uri "computer://"
    ∧ GioRef.thunar_g_file_new_for_network = GioRef.g_file_new_for_uri "network://" :=
  ⟨rfl, rfl, rfl, rfl, rfl⟩

/-- C9: each pseudo-location predicate accepts the handle its constructor
builds; in particular the constructor URI "computer://" canonicalizes to the
literal "computer:///" that `thunar_g_file_is_computer` compares against. -/
theorem pseudo_location_predicates_accept_constructors :
    GioRef.thunar_g_file_is_trash GioRef.thunar_g_file_new_for_trash = true
    ∧ GioRef.thunar_g_file_is_recent GioRef.thunar_g_file_new_for_recent = true
    ∧ GioRef.thunar_g_file_is_computer GioRef.thunar_g_file_new_for_computer = true
    ∧ GioRef.g_file_get_uri GioRef.thunar_g_file_new_for_computer = "computer:///"
    ∧ GioRef.thunar_g_file_is_network GioRef.thunar_g_file_new_for_network = true := by
  refine ⟨?_, ?_, ?_, ?_, ?_⟩ <;> decide

/-- C1: evaluation of `thunar_g_file_get_free_space` at the failing input.
When the queried filesystem info lacks the free-space attribute but carries
the total-size attribute and both out-parameters are non-NULL, the function
returns TRUE: the `success` flag set FALSE by the free-attribute check is
overwritten by the size-attribute check, contradicting the function's own
documentation ("Returns TRUE if the amount of free space was determined
successfully"). -/
theorem free_space_success_despite_missing_free_attribute :
    (FreeSpace.thunar_g_file_get_free_space
        (some { hasFree := false, freeVal := 0, hasSize := true, sizeVal := 1000 })
        true true).success = true
    ∧ (FreeSpace.FsInfo.hasFree
        { hasFree := false, freeVal := 0, hasSize := true, sizeVal := 1000 }) = false := by
  exact ⟨rfl, rfl⟩

namespace GioPath

/-- A GIO file handle viewed through its path structure: the list of path
segments below the filesystem root.  The root itself is the empty list.
`g_file_equal` on such handles is structural equality. -/
structure GFilePath where
  segs : List String
deriving DecidableEq

/-- GIO `g_file_get_parent`: NULL for the filesystem root, otherwise the
handle with the last segment removed. -/
def g_file_get_parent (f : GFilePath) : Option GFilePath :=
  match f.segs with
  | [] => none
  | _ :: _ => some ⟨f.segs.dropLast⟩

/-- GIO `g_file_equal`. -/
def g_file_equal (a b : GFilePath) : Bool := a == b

/-- `thunar_g_file_is_descendant`: starting from the candidate descendant,
walk `g_file_get_parent` links upward; return TRUE at the first handle equal
to the ancestor, FALSE once the root's parent (NULL) is reached. -/
def thunar_g_file_is_descendant (descendant ancestor : GFilePath) : Bool :=
  if g_file_equal descendant ancestor then true
  else
    match h : g_file_get_parent descendant with
    | none => false
    | some p => thunar_g_file_is_descendant p ancestor
termination_by descendant.segs.length
decreasing_by
  simp only [g_file_get_parent] at h
  split at h
  · exact absurd h (by simp)
  · rename_i x xs hxs
    cases h
    simp [hxs]

/-- The chain of handles the walk of `thunar_g_file_is_descendant` visits:
the candidate itself, then each parent in turn up to the filesystem root. -/
def parentChain (f : GFilePath) : List GFilePath :=
  f :: (match h : g_file_get_parent f with
        | none => []
        | some p => parentChain p)
termination_by f.segs.length
decreasing_by
  simp only [g_file_get_parent] at h
  split at h
  · exact absurd h (by simp)
  · rename_i x xs hxs
    cases h
    simp [hxs]

/-- The loop body of `thunar_g_file_list_get_parents`: `acc` is the
`parent_folder_list` built so far; each element of the input that is a GFile
(`some`) and has a parent contributes that parent unless an equal handle is
already in `acc`. -/
def getParentsLoop (acc : List GFilePath) : List (Option GFilePath) → List GFilePath
  | [] => acc
  | none :: rest => getParentsLoop acc rest
  | some f :: rest =>
    match g_file_get_parent f with
    | none => getParentsLoop acc rest
    | some parentFolder =>
      if acc.any (fun q => g_file_equal q parentFolder) then getParentsLoop acc rest
      else getParentsLoop (acc ++ [parentFolder]) rest

/-- `thunar_g_file_list_get_parents`: collect the parent folders of the input
elements, adding each distinct parent once.  An input element that is not a
GFile is modelled as `none`. -/
def thunar_g_file_list_get_parents (file_list : List (Option GFilePath)) : List GFilePath :=
  getParentsLoop [] file_list

theorem isDescendant_none (d a : GFilePath) (h : g_file_get_parent d = none) :
    thunar_g_file_is_descendant d a = g_file_equal d a := by
  rw [thunar_g_file_is_descendant]
  by_cases heq : g_file_equal d a
  · simp [heq]
  · rw [if_neg heq]
    simp only [Bool.not_eq_true] at heq
    rw [heq]
    split
    · rfl
    · rename_i p hp
      rw [h] at hp
      exact absurd hp (by simp)

theorem isDescendant_some (d a p : GFilePath) (h : g_file_get_parent d = some p) :
    thunar_g_file_is_descendant d a = (g_file_equal d a || thunar_g_file_is_descendant p a) := by
  rw [thunar_g_file_is_descendant]
  by_cases heq : g_file_equal d a
  · simp [heq]
  · rw [if_neg heq]
    simp only [Bool.not_eq_true] at heq
    rw [heq, Bool.false_or]
    split
    · rename_i hp
      rw [h] at hp
      exact absurd hp (by simp)
    · rename_i q hq
      rw [h] at hq
      rw [Option.some.injEq] at hq
      rw [hq]

theorem parentChain_none (d : GFilePath) (h : g_file_get_parent d = none) :
    parentChain d = [d] := by
  rw [parentChain]
  congr 1
  split
  · rfl
  · rename_i p hp
    rw [h] at hp
    exact absurd hp (by simp)

theorem parentChain_some (d p : GFilePath) (h : g_file_get_parent d = some p) :
    parentChain d = d :: parentChain p := by
  rw [parentChain]
  congr 1
  split
  · rename_i hp
    rw [h] at hp
    exact absurd hp (by simp)
  · rename_i q hq
    rw [h] at hq
    rw [Option.some.injEq] at hq
    rw [hq]

theorem is_descendant_iff_mem_chain (d a : GFilePath) :
    thunar_g_file_is_descendant d a = true ↔ a ∈ parentChain d := by
  induction d, a using thunar_g_file_is_descendant.induct with
  | case1 d a heq =>
    rw [thunar_g_file_is_descendant, if_pos heq]
    simp only [g_file_equal, beq_iff_eq] at heq
    subst heq
    rw [parentChain]
    simp
  | case2 d a heq hpar =>
    rw [isDescendant_none d a hpar, parentChain_none d hpar]
    simp only [g_file_equal, beq_iff_eq] at heq ⊢
    simp [eq_comm]
  | case3 d a heq p hpar ih =>
    rw [isDescendant_some d a p hpar, parentChain_some d p hpar]
    simp only [g_file_equal, beq_iff_eq] at heq ⊢
    simp [ih]
    exact or_congr eq_comm Iff.rfl

theorem mem_getParentsLoop (l : List (Option GFilePath)) (acc : List GFilePath)
    (p : GFilePath) :
    p ∈ getParentsLoop acc l
      ↔ p ∈ acc ∨ ∃ f, some f ∈ l ∧ g_file_get_parent f = some p := by
  induction l generalizing acc with
  | nil => simp [getParentsLoop]
  | cons hd rest ih =>
    match hd with
    | none =>
      rw [getParentsLoop, ih]
      constructor
      · rintro (h | ⟨f, hf, hp⟩)
        · exact Or.inl h
        · exact Or.inr ⟨f, List.mem_cons_of_mem _ hf, hp⟩
      · rintro (h | ⟨f, hf, hp⟩)
        · exact Or.inl h
        · rcases List.mem_cons.mp hf with h1 | h1
          · exact absurd h1 (by simp)
          · exact Or.inr ⟨f, h1, hp⟩
    | some f =>
      cases hpar : g_file_get_parent f with
      | none =>
        simp only [getParentsLoop, hpar]
        rw [ih]
        constructor
        · rintro (h | ⟨g, hg, hp⟩)
          · exact Or.inl h
          · exact Or.inr ⟨g, List.mem_cons_of_mem _ hg, hp⟩
        · rintro (h | ⟨g, hg, hp⟩)
          · exact Or.inl h
          · rcases List.mem_cons.mp hg with h1 | h1
            · rw [Option.some.injEq] at h1
              subst h1
              rw [hpar] at hp
              exact absurd hp (by simp)
            · exact Or.inr ⟨g, h1, hp⟩
      | some q =>
        simp only [getParentsLoop, hpar]
        by_cases hmem : acc.any (fun r => g_file_equal r q)
        · rw [if_pos hmem, ih]
          simp only [List.any_eq_true, g_file_equal, beq_iff_eq] at hmem
          obtain ⟨r, hr, hrq⟩ := hmem
          subst hrq
          constructor
          · rintro (h | ⟨g, hg, hp⟩)
            · exact Or.inl h
            · exact Or.inr ⟨g, List.mem_cons_of_mem _ hg, hp⟩
          · rintro (h | ⟨g, hg, hp⟩)
            · exact Or.inl h
            · rcases List.mem_cons.mp hg with h1 | h1
              · rw [Option.some.injEq] at h1
                subst h1
                rw [hpar] at hp
                rw [Option.some.injEq] at hp
                subst hp
                exact Or.inl hr
              · exact Or.inr ⟨g, h1, hp⟩
        · rw [if_neg hmem, ih]
          constructor
          · rintro (h | ⟨g, hg, hp⟩)
            · rcases List.mem_append.mp h with h1 | h1
              · exact Or.inl h1
              · rw [List.mem_singleton] at h1
                subst h1
                exact Or.inr ⟨f, List.mem_cons_self _ _, hpar⟩
            · exact Or.inr ⟨g, List.mem_cons_of_mem _ hg, hp⟩
          · rintro (h | ⟨g, hg, hp⟩)
            · exact Or.inl (List.mem_append.mpr (Or.inl h))
            · rcases List.mem_cons.mp hg with h1 | h1
              · rw [Option.some.injEq] at h1
                subst h1
                rw [hpar] at hp
                rw [Option.some.injEq] at hp
                subst hp
                exact Or.inl (List.mem_append.mpr (Or.inr (List.mem_singleton.mpr rfl)))
              · exact Or.inr ⟨g, h1, hp⟩

theorem nodup_getParentsLoop (l : List (Option GFilePath)) (acc : List GFilePath)
    (hacc : acc.Nodup) : (getParentsLoop acc l).Nodup := by
  induction l generalizing acc with
  | nil => simpa [getParentsLoop] using hacc
  | cons hd rest ih =>
    match hd with
    | none =>
      rw [getParentsLoop]
      exact ih acc hacc
    | some f =>
      cases hpar : g_file_get_parent f with
      | none =>
        simp only [getParentsLoop, hpar]
        exact ih acc hacc
      | some q =>
        simp only [getParentsLoop, hpar]
        by_cases hmem : acc.any (fun r => g_file_equal r q)
        · rw [if_pos hmem]
          exact ih acc hacc
        · rw [if_neg hmem]
          refine ih _ ?_
          simp only [List.any_eq_true, g_file_equal, beq_iff_eq, not_exists] at hmem
          rw [List.nodup_append]
          refine ⟨hacc, List.nodup_singleton q, ?_⟩
          intro x hx hxq
          rw [List.mem_singleton] at hxq
          subst hxq
          exact (hmem x) ⟨hx, rfl⟩

end GioPath

/-- C8: `thunar_g_file_is_descendant` returns TRUE if and only if some handle
on the parent chain starting at the candidate descendant (the candidate itself
included, walking `g_file_get_parent` links upward until the filesystem root,
which has no parent) is equal to the ancestor. -/
theorem is_descendant_true_iff_ancestor_on_parent_chain
    (descendant ancestor : GioPath.GFilePath) :
    GioPath.thunar_g_file_is_descendant descendant ancestor = true
      ↔ ancestor ∈ GioPath.parentChain descendant :=
  GioPath.is_descendant_iff_mem_chain descendant ancestor

/-- C10: the list `thunar_g_file_list_get_parents` returns holds exactly one
entry for each distinct parent of the input elements: its elements are
pairwise non-equal, every element is the parent of some file-handle input
element, and every file-handle input element with a parent has that parent in
the list (so inputs without a parent, or that are not file handles, contribute
nothing). -/
theorem list_get_parents_exactly_distinct_parents
    (file_list : List (Option GioPath.GFilePath)) :
    (GioPath.thunar_g_file_list_get_parents file_list).Nodup
    ∧ (∀ p ∈ GioPath.thunar_g_file_list_get_parents file_list,
        ∃ f, some f ∈ file_list ∧ GioPath.g_file_get_parent f = some p)
    ∧ (∀ f p, some f ∈ file_list → GioPath.g_file_get_parent f = some p →
        p ∈ GioPath.thunar_g_file_list_get_parents file_list) := by
  refine ⟨GioPath.nodup_getParentsLoop file_list [] List.nodup_nil, ?_, ?_⟩
  · intro p hp
    rcases (GioPath.mem_getParentsLoop file_list [] p).mp hp with h | h
    · exact absurd h (by simp)
    · exact h
  · intro f p hf hp
    exact (GioPath.mem_getParentsLoop file_list [] p).mpr (Or.inr ⟨f, hf, hp⟩)

namespace GioCopy

open GioPath (GFilePath g_file_get_parent)

/-- A GError as this module sees it: either a native error produced by the
underlying VFS library (`fromLib`, carrying the library's error code), or an
error this module itself creates with `g_error_new` (`newError`, carrying the
domain, code and message passed there). -/
inductive GError where
  | fromLib (code : Nat)
  | newError (domain code : Nat) (message : String)
deriving DecidableEq

/-- Tag for the G_IO_ERROR domain. -/
def G_IO_ERROR : Nat := 0

/-- Tag for the G_IO_ERROR_EXISTS code. -/
def G_IO_ERROR_EXISTS : Nat := 1

/-- GLib semantics of setting an error into a location that may already hold
one: an already-set error is kept and the new one is dropped. -/
def gSetError (cur : Option GError) (e : GError) : Option GError :=
  match cur with
  | some old => some old
  | none => some e

/-- The STANDARD_TYPE attribute values this module distinguishes. -/
inductive FileType where
  | regular
  | directory
  | symbolicLink
  | special
deriving DecidableEq

/-- One call into the GIO library: the file (or source/destination pair) it
addresses and the cancellable token passed to it (`none` models NULL). -/
inductive GioCall where
  | queryInfo (f : GFilePath) (c : Option Nat)
  | queryExists (f : GFilePath) (c : Option Nat)
  | delete (f : GFilePath) (c : Option Nat)
  | copy (src dst : GFilePath) (c : Option Nat)
  | setDisplayName (f : GFilePath) (name : String) (c : Option Nat)
  | loadContents (f : GFilePath) (c : Option Nat)
deriving DecidableEq

/-- Outcomes the underlying library yields for the calls this module makes.
For the fallible operations `some code` is the native error the library
reports and `none` is success; `queryInfoType` is the STANDARD_TYPE attribute
`g_file_query_info` reads (`none` models a NULL info result), as a function of
the file and of the nofollow-symlinks query flag. -/
structure GioEnv where
  queryInfoType : GFilePath → Bool → Option FileType
  queryExists : GFilePath → Bool
  deleteResult : GFilePath → Option Nat
  copyResult : GFilePath → GFilePath → Option Nat
  setDisplayNameResult : GFilePath → String → Option Nat

/-- The two GFileCopyFlags bits this module reads. -/
structure CopyFlags where
  overwrite : Bool
  nofollowSymlinks : Bool
deriving DecidableEq

/-- What a call of `thunar_g_file_copy` leaves behind: its boolean return,
what the caller's error location holds on return, and the calls made into the
library, in order. -/
structure CopyOutcome where
  success : Bool
  errorOut : Option GError
  trace : List GioCall
deriving DecidableEq

/-- GIO `g_file_get_basename` on a path-structured handle: the last path
segment, NULL for the root. -/
def g_file_get_basename (f : GFilePath) : Option String := f.segs.getLast?

/-- GIO `g_file_get_child`. -/
def g_file_get_child (f : GFilePath) (name : String) : GFilePath := ⟨f.segs ++ [name]⟩

/-- GIO `g_file_has_parent (file, NULL)`. -/
def g_file_has_parent (f : GFilePath) : Bool := (g_file_get_parent f).isSome

/-- GIO `g_file_peek_path` on a path-structured handle. -/
def g_file_peek_path (f : GFilePath) : String :=
  "/" ++ String.intercalate "/" f.segs

/-- The destination base name `thunar_g_file_copy` works with:
`g_file_get_basename (destination)`, with the "UNNAMED" fallback for NULL. -/
def destBase (destination : GFilePath) : String :=
  (g_file_get_basename destination).getD "UNNAMED"

/-- The partial file `thunar_g_file_copy` copies to: the child of the
destination's parent named after the destination's base name truncated to 100
characters with ".partial~" appended (`g_strdup_printf ("%.100s.partial~",
base_name)`). -/
def partialFileFor (destination : GFilePath) : GFilePath :=
  g_file_get_child ((g_file_get_parent destination).getD ⟨[]⟩)
    ((destBase destination).take 100 ++ ".partial~")

/-- The tail of `thunar_g_file_copy` on the partial path once the destination
check has passed: delete a stale partial file, copy the source to the partial
file, rename it to the base name on success, and delete it on failure (with a
NULL error location and a NULL cancellable).  `errLive` says whether the local
`error` pointer is still non-NULL: the caller may have passed NULL, and the
overwrite branch sets the local pointer to NULL.  `err0` is what the caller's
error slot holds on entry and `tr0` the calls made so far. -/
def copyToPartialPhase (env : GioEnv) (source destination : GFilePath)
    (cancellable : Option Nat) (errLive : Bool) (err0 : Option GError)
    (tr0 : List GioCall) : CopyOutcome :=
  let base_name := destBase destination
  let partialFile := partialFileFor destination
  let partialStale := env.queryExists partialFile
  let tr1 := tr0 ++ [GioCall.queryExists partialFile none]
      ++ (if partialStale then [GioCall.delete partialFile none] else [])
  let err1 :=
    if partialStale ∧ errLive then
      match env.deleteResult partialFile with
      | some code => gSetError err0 (GError.fromLib code)
      | none => err0
    else err0
  let copyErr := env.copyResult source partialFile
  let tr2 := tr1 ++ [GioCall.copy source partialFile cancellable]
  match copyErr with
  | none =>
    let tr3 := tr2 ++ [GioCall.setDisplayName partialFile base_name none]
    match env.setDisplayNameResult partialFile base_name with
    | none => { success := true, errorOut := err1, trace := tr3 }
    | some code =>
      { success := false,
        errorOut := if errLive then gSetError err1 (GError.fromLib code) else err1,
        trace := tr3 ++ [GioCall.delete partialFile none] }
  | some code =>
    { success := false,
      errorOut := if errLive then gSetError err1 (GError.fromLib code) else err1,
      trace := tr2 ++ [GioCall.delete partialFile none] }

/-- `thunar_g_file_copy`, translated statement by statement.  `usePartialArg`
is the `use_partial` argument; `errNonNull` says whether the caller passed a
non-NULL error location.  When partial copying is requested the source's type
is queried (forwarding the cancellable); a NULL info or a non-regular type
falls back to a plain `g_file_copy`.  On the partial path an existing
destination is either deleted (with the local error pointer set to NULL
first, so later errors are no longer delivered) when the OVERWRITE flag is
set, or reported through a module-made G_IO_ERROR_EXISTS error. -/
def thunar_g_file_copy (env : GioEnv) (source destination : GFilePath)
    (flags : CopyFlags) (usePartialArg : Bool) (cancellable : Option Nat)
    (errNonNull : Bool) : CopyOutcome :=
  if ¬ g_file_has_parent destination then
    { success := false, errorOut := none, trace := [] }
  else
    let info : Option FileType :=
      if usePartialArg then env.queryInfoType source flags.nofollowSymlinks else none
    let tr0 : List GioCall :=
      if usePartialArg then [GioCall.queryInfo source cancellable] else []
    let usePartialNow : Bool :=
      match info with
      | none => false
      | some t => t == FileType.regular
    if ¬ usePartialNow then
      let copyErr := env.copyResult source destination
      { success := copyErr.isNone,
        errorOut := if errNonNull then copyErr.map GError.fromLib else none,
        trace := tr0 ++ [GioCall.copy source destination cancellable] }
    else
      let tr1 := tr0 ++ [GioCall.queryExists destination none]
      if env.queryExists destination then
        if flags.overwrite then
          copyToPartialPhase env source destination cancellable false none
            (tr1 ++ [GioCall.delete destination none])
        else
          { success := false,
            errorOut := if errNonNull then
                some (GError.newError G_IO_ERROR G_IO_ERROR_EXISTS
                  ("Error opening file \"" ++ g_file_peek_path destination
                    ++ "\": File exists"))
              else none,
            trace := tr1 }
      else
        copyToPartialPhase env source destination cancellable errNonNull none tr1

/-- Outcomes of the two libraries `thunar_g_file_query_key_file` calls into:
`g_file_load_contents` yields the file's bytes or a native error, and
`g_key_file_load_from_data` parses bytes into a key file or reports a native
parse error. -/
structure KeyFileEnv where
  loadContents : GFilePath → Except Nat (List Nat)
  keyFileParse : List Nat → Except Nat Unit

/-- What `thunar_g_file_query_key_file` leaves behind: the parsed key file
(represented by the contents it was loaded from; `none` models a NULL
return), the caller's error slot, and the calls made into the VFS library. -/
structure KeyFileOutcome where
  keyFile : Option (List Nat)
  errorOut : Option GError
  trace : List GioCall
deriving DecidableEq

/-- `thunar_g_file_query_key_file`: load the file's contents (forwarding the
cancellable), then parse them; an empty file yields a fresh empty key file. -/
def thunar_g_file_query_key_file (env : KeyFileEnv) (file : GFilePath)
    (cancellable : Option Nat) : KeyFileOutcome :=
  match env.loadContents file with
  | Except.error code =>
    { keyFile := none, errorOut := some (GError.fromLib code),
      trace := [GioCall.loadContents file cancellable] }
  | Except.ok contents =>
    if contents.length = 0 then
      { keyFile := some [], errorOut := none,
        trace := [GioCall.loadContents file cancellable] }
    else
      match env.keyFileParse contents with
      | Except.ok _ =>
        { keyFile := some contents, errorOut := none,
          trace := [GioCall.loadContents file cancellable] }
      | Except.error code =>
        { keyFile := none, errorOut := some (GError.fromLib code),
          trace := [GioCall.loadContents file cancellable] }

/-- THUNAR_FILE_MODE_USR_EXEC. -/
def THUNAR_FILE_MODE_USR_EXEC : Nat := 64

/-- THUNAR_FILE_MODE_GRP_EXEC. -/
def THUNAR_FILE_MODE_GRP_EXEC : Nat := 8

/-- THUNAR_FILE_MODE_OTH_EXEC. -/
def THUNAR_FILE_MODE_OTH_EXEC : Nat := 1

/-- Outcomes of the two library calls `thunar_g_file_set_executable_flags`
makes: `queryModeInfo` is `none` when `g_file_query_info` returns NULL (with
native error `queryErrCode`), `some none` when the info lacks the unix::mode
attribute, and `some (some mode)` when it carries it; `setAttrResult` is the
native error of `g_file_set_attribute_uint32`, `none` on success. -/
structure ExecEnv where
  queryModeInfo : Option (Option Nat)
  queryErrCode : Nat
  setAttrResult : Option Nat
deriving DecidableEq

/-- What `thunar_g_file_set_executable_flags` leaves behind. -/
structure ExecOutcome where
  result : Bool
  errorOut : Option GError
deriving DecidableEq

/-- `thunar_g_file_set_executable_flags`: query the unix::mode attribute, or
the new mode with the three exec bits and write it back when it changed.  The
final statement of the C function is `return (error == NULL)`: it compares
the caller-supplied error POINTER, which the function never reassigns, so the
boolean result is TRUE exactly when the caller passed NULL, independent of
whether anything failed. -/
def thunar_g_file_set_executable_flags (env : ExecEnv) (errNonNull : Bool) : ExecOutcome :=
  let errAfter : Option GError :=
    match env.queryModeInfo with
    | none => if errNonNull then some (GError.fromLib env.queryErrCode) else none
    | some none => none
    | some (some old_mode) =>
      let new_mode := old_mode ||| THUNAR_FILE_MODE_USR_EXEC
          ||| THUNAR_FILE_MODE_GRP_EXEC ||| THUNAR_FILE_MODE_OTH_EXEC
      if old_mode ≠ new_mode then
        if errNonNull then (env.setAttrResult).map GError.fromLib else none
      else none
  { result := !errNonNull, errorOut := errAfter }

end GioCopy

/-- C2: with the partial option enabled and a regular-file source,
`thunar_g_file_copy` copies the source to the sibling of the destination named
by the destination's base name truncated to 100 characters with ".partial~"
appended, then on copy success renames that partial file to the destination's
base name, and on failure deletes the partial file; a non-regular source (or a
NULL type query) bypasses the partial step and copies the source directly to
the destination. -/
theorem copy_partial_first_then_rename (env : GioCopy.GioEnv)
    (source destination : GioPath.GFilePath) (flags : GioCopy.CopyFlags)
    (cancellable : Option Nat) (errNonNull : Bool)
    (hpar : GioCopy.g_file_has_parent destination = true) :
    (env.queryInfoType source flags.nofollowSymlinks = some GioCopy.FileType.regular →
      env.queryExists destination = false →
      ((GioCopy.thunar_g_file_copy env source destination flags true cancellable errNonNull).trace
        = [GioCopy.GioCall.queryInfo source cancellable,
           GioCopy.GioCall.queryExists destination none,
           GioCopy.GioCall.queryExists (GioCopy.partialFileFor destination) none]
          ++ (if env.queryExists (GioCopy.partialFileFor destination)
              then [GioCopy.GioCall.delete (GioCopy.partialFileFor destination) none] else [])
          ++ [GioCopy.GioCall.copy source (GioCopy.partialFileFor destination) cancellable]
          ++ (match env.copyResult source (GioCopy.partialFileFor destination) with
              | none =>
                [GioCopy.GioCall.setDisplayName (GioCopy.partialFileFor destination)
                    (GioCopy.destBase destination) none]
                  ++ (match env.setDisplayNameResult (GioCopy.partialFileFor destination)
                          (GioCopy.destBase destination) with
                      | none => []
                      | some _ => [GioCopy.GioCall.delete (GioCopy.partialFileFor destination) none])
              | some _ => [GioCopy.GioCall.delete (GioCopy.partialFileFor destination) none]))
        ∧ ((GioCopy.thunar_g_file_copy env source destination flags true cancellable errNonNull).success = true
            ↔ env.copyResult source (GioCopy.partialFileFor destination) = none
              ∧ env.setDisplayNameResult (GioCopy.partialFileFor destination)
                  (GioCopy.destBase destination) = none))
    ∧ (∀ t, env.queryInfoType source flags.nofollowSymlinks = some t →
        t ≠ GioCopy.FileType.regular →
        GioCopy.thunar_g_file_copy env source destination flags true cancellable errNonNull
          = { success := (env.copyResult source destination).isNone,
              errorOut := if errNonNull
                then (env.copyResult source destination).map GioCopy.GError.fromLib else none,
              trace := [GioCopy.GioCall.queryInfo source cancellable,
                        GioCopy.GioCall.copy source destination cancellable] })
    ∧ (env.queryInfoType source flags.nofollowSymlinks = none →
        GioCopy.thunar_g_file_copy env source destination flags true cancellable errNonNull
          = { success := (env.copyResult source destination).isNone,
              errorOut := if errNonNull
                then (env.copyResult source destination).map GioCopy.GError.fromLib else none,
              trace := [GioCopy.GioCall.queryInfo source cancellable,
                        GioCopy.GioCall.copy source destination cancellable] }) := by
  refine ⟨?_, ?_, ?_⟩
  · intro hreg hdst
    have hmain : GioCopy.thunar_g_file_copy env source destination flags true cancellable errNonNull
        = GioCopy.copyToPartialPhase env source destination cancellable errNonNull none
            [GioCopy.GioCall.queryInfo source cancellable,
             GioCopy.GioCall.queryExists destination none] := by
      simp [GioCopy.thunar_g_file_copy, hpar, hreg, hdst]
    rw [hmain]
    rcases hc : env.copyResult source (GioCopy.partialFileFor destination) with _ | code <;>
      rcases hr : env.setDisplayNameResult (GioCopy.partialFileFor destination)
          (GioCopy.destBase destination) with _ | code2 <;>
      by_cases hstale : env.queryExists (GioCopy.partialFileFor destination) <;>
      simp [GioCopy.copyToPartialPhase, hc, hr, hstale]
  · intro t ht hne
    have hb : (t == GioCopy.FileType.regular) = false := by
      cases t <;> simp_all
    simp [GioCopy.thunar_g_file_copy, hpar, ht, hb]
  · intro hnone
    simp [GioCopy.thunar_g_file_copy, hpar, hnone]

namespace GioCopy

/-- Environment for the concrete witness run of the copy theorems: the
destination does not yet exist, no stale partial file is present, and every
library operation succeeds. -/
def witnessEnv : GioEnv :=
  { queryInfoType := fun _ _ => some FileType.regular,
    queryExists := fun _ => false,
    deleteResult := fun _ => none,
    copyResult := fun _ _ => none,
    setDisplayNameResult := fun _ _ => none }

/-- Environment in which the destination (and every other file) already
exists; all operations succeed. -/
def existsEnv : GioEnv :=
  { queryInfoType := fun _ _ => some FileType.regular,
    queryExists := fun _ => true,
    deleteResult := fun _ => none,
    copyResult := fun _ _ => none,
    setDisplayNameResult := fun _ _ => none }

/-- TRUE when an error slot holds nothing or a native library error, FALSE
when it holds an error this module made itself. -/
def nativeOnly : Option GError → Bool
  | none => true
  | some (GError.fromLib _) => true
  | some (GError.newError _ _ _) => false

theorem phase_errorOut_native (env : GioEnv) (s d : GioPath.GFilePath)
    (c : Option Nat) (eL : Bool) (tr0 : List GioCall) :
    nativeOnly (copyToPartialPhase env s d c eL none tr0).errorOut = true := by
  unfold copyToPartialPhase
  rcases hc : env.copyResult s (partialFileFor d) with _ | code <;>
    rcases hr : env.setDisplayNameResult (partialFileFor d) (destBase d) with _ | code2 <;>
    rcases hd : env.deleteResult (partialFileFor d) with _ | code3 <;>
    by_cases hstale : env.queryExists (partialFileFor d) <;>
    cases eL <;>
    simp [hc, hr, hd, hstale, gSetError, nativeOnly]

end GioCopy

set_option maxRecDepth 8192 in
/-- C2 witness: the partial-copy theorem applied at a concrete environment
where the destination "/d" does not exist and every operation succeeds: the
call trace is exactly query-type, destination check, partial check, copy to
"/d.partial~", rename to "d". -/
theorem copy_partial_first_then_rename_witness :
    (GioCopy.thunar_g_file_copy GioCopy.witnessEnv ⟨["s"]⟩ ⟨["d"]⟩ ⟨false, false⟩
        true (some 5) true).trace
      = [GioCopy.GioCall.queryInfo ⟨["s"]⟩ (some 5),
         GioCopy.GioCall.queryExists ⟨["d"]⟩ none,
         GioCopy.GioCall.queryExists ⟨["d.partial~"]⟩ none,
         GioCopy.GioCall.copy ⟨["s"]⟩ ⟨["d.partial~"]⟩ (some 5),
         GioCopy.GioCall.setDisplayName ⟨["d.partial~"]⟩ "d" none] := by
  have h := copy_partial_first_then_rename GioCopy.witnessEnv ⟨["s"]⟩ ⟨["d"]⟩
      ⟨false, false⟩ (some 5) true (by decide)
  have h1 := (h.1 rfl rfl).1
  rw [h1]
  rfl

/-- C3 counterexample: two concrete runs refuting the claim.  First,
`thunar_g_file_copy` with the partial option, a regular source and an already
existing destination without the OVERWRITE flag delivers an error the module
itself created with `g_error_new` (G_IO_ERROR_EXISTS), not a native library
error.  Second, `thunar_g_file_set_executable_flags` on a file whose mode
0o755 already has all execute bits (so no library call fails and no error
occurs) returns FALSE to a caller that passed a non-NULL error location. -/
theorem errors_not_all_native_counterexample :
    GioCopy.nativeOnly
        (GioCopy.thunar_g_file_copy GioCopy.existsEnv ⟨["s"]⟩ ⟨["d"]⟩ ⟨false, false⟩
            true none true).errorOut
      = false
    ∧ (GioCopy.thunar_g_file_set_executable_flags
        { queryModeInfo := some (some 493), queryErrCode := 0, setAttrResult := none }
        true).result = false
    ∧ (GioCopy.thunar_g_file_set_executable_flags
        { queryModeInfo := some (some 493), queryErrCode := 0, setAttrResult := none }
        true).errorOut = none := by
  refine ⟨?_, ?_, ?_⟩ <;> rfl

/-- C3 amended: errors delivered to the caller are native errors of the
underlying library, propagated unchanged, with two exceptions the code makes
deliberately or by a slip: `thunar_g_file_copy` creates its own
G_IO_ERROR_EXISTS error when the partial path finds the destination already
existing without the OVERWRITE flag (and then fails), and
`thunar_g_file_set_executable_flags` returns TRUE exactly when the caller
passed a NULL error location, independent of failure.
`thunar_g_file_query_key_file` keeps the original contract: it returns NULL
exactly when a native error was delivered. -/
theorem errors_native_except_synthesized_exists :
    (∀ (kenv : GioCopy.KeyFileEnv) (file : GioPath.GFilePath) (c : Option Nat),
        GioCopy.nativeOnly (GioCopy.thunar_g_file_query_key_file kenv file c).errorOut = true
        ∧ ((GioCopy.thunar_g_file_query_key_file kenv file c).keyFile = none
            ↔ (GioCopy.thunar_g_file_query_key_file kenv file c).errorOut ≠ none))
    ∧ (∀ (env : GioCopy.GioEnv) (s d : GioPath.GFilePath) (fl : GioCopy.CopyFlags)
          (up : Bool) (c : Option Nat) (e : Bool),
        GioCopy.nativeOnly (GioCopy.thunar_g_file_copy env s d fl up c e).errorOut = true
        ∨ (env.queryExists d = true ∧ fl.overwrite = false
            ∧ (GioCopy.thunar_g_file_copy env s d fl up c e).success = false
            ∧ (GioCopy.thunar_g_file_copy env s d fl up c e).errorOut
                = some (GioCopy.GError.newError GioCopy.G_IO_ERROR GioCopy.G_IO_ERROR_EXISTS
                    ("Error opening file \"" ++ GioCopy.g_file_peek_path d
                      ++ "\": File exists"))))
    ∧ (∀ (env : GioCopy.ExecEnv) (e : Bool),
        (GioCopy.thunar_g_file_set_executable_flags env e).result = !e
        ∧ GioCopy.nativeOnly
            (GioCopy.thunar_g_file_set_executable_flags env e).errorOut = true) := by
  refine ⟨?_, ?_, ?_⟩
  · intro kenv file c
    cases hl : kenv.loadContents file with
    | error code =>
      simp [GioCopy.thunar_g_file_query_key_file, hl, GioCopy.nativeOnly]
    | ok contents =>
      by_cases hz : contents.length = 0
      · simp [GioCopy.thunar_g_file_query_key_file, hl, hz, GioCopy.nativeOnly]
      · cases hparse : kenv.keyFileParse contents with
        | error code =>
          simp [GioCopy.thunar_g_file_query_key_file, hl, hz, hparse, GioCopy.nativeOnly]
        | ok u =>
          simp [GioCopy.thunar_g_file_query_key_file, hl, hz, hparse, GioCopy.nativeOnly]
  · intro env s d fl up c e
    by_cases hp : GioCopy.g_file_has_parent d
    · cases up with
      | false =>
        left
        rcases hcr : env.copyResult s d with _ | code <;>
          cases e <;>
          simp [GioCopy.thunar_g_file_copy, hp, hcr, GioCopy.nativeOnly]
      | true =>
        cases ht : env.queryInfoType s fl.nofollowSymlinks with
        | none =>
          left
          rcases hcr : env.copyResult s d with _ | code <;>
            cases e <;>
            simp [GioCopy.thunar_g_file_copy, hp, ht, hcr, GioCopy.nativeOnly]
        | some t =>
          cases t with
          | regular =>
            by_cases hq : env.queryExists d
            · by_cases ho : fl.overwrite
              · left
                have : GioCopy.thunar_g_file_copy env s d fl true c e
                    = GioCopy.copyToPartialPhase env s d c false none
                        [GioCopy.GioCall.queryInfo s c,
                         GioCopy.GioCall.queryExists d none,
                         GioCopy.GioCall.delete d none] := by
                  simp [GioCopy.thunar_g_file_copy, hp, ht, hq, ho]
                rw [this]
                exact GioCopy.phase_errorOut_native env s d c false _
              · cases e with
                | false =>
                  left
                  simp [GioCopy.thunar_g_file_copy, hp, ht, hq, ho, GioCopy.nativeOnly]
                | true =>
                  right
                  refine ⟨hq, by simpa using ho, ?_, ?_⟩ <;>
                    simp [GioCopy.thunar_g_file_copy, hp, ht, hq, ho]
            · left
              have : GioCopy.thunar_g_file_copy env s d fl true c e
                  = GioCopy.copyToPartialPhase env s d c e none
                      [GioCopy.GioCall.queryInfo s c,
                       GioCopy.GioCall.queryExists d none] := by
                simp [GioCopy.thunar_g_file_copy, hp, ht, hq]
              rw [this]
              exact GioCopy.phase_errorOut_native env s d c e _
          | directory =>
            left
            rcases hcr : env.copyResult s d with _ | code <;>
              cases e <;>
              simp [GioCopy.thunar_g_file_copy, hp, ht, hcr, GioCopy.nativeOnly]
          | symbolicLink =>
            left
            rcases hcr : env.copyResult s d with _ | code <;>
              cases e <;>
              simp [GioCopy.thunar_g_file_copy, hp, ht, hcr, GioCopy.nativeOnly]
          | special =>
            left
            rcases hcr : env.copyResult s d with _ | code <;>
              cases e <;>
              simp [GioCopy.thunar_g_file_copy, hp, ht, hcr, GioCopy.nativeOnly]
    · left
      simp [GioCopy.thunar_g_file_copy, hp, GioCopy.nativeOnly]
  · intro env e
    refine ⟨rfl, ?_⟩
    rcases hq : env.queryModeInfo with _ | mi
    · cases e <;> simp [GioCopy.thunar_g_file_set_executable_flags, hq, GioCopy.nativeOnly]
    · rcases mi with _ | m
      · simp [GioCopy.thunar_g_file_set_executable_flags, hq, GioCopy.nativeOnly]
      · by_cases hm : m = m ||| GioCopy.THUNAR_FILE_MODE_USR_EXEC
            ||| GioCopy.THUNAR_FILE_MODE_GRP_EXEC ||| GioCopy.THUNAR_FILE_MODE_OTH_EXEC
        · have hnone : (GioCopy.thunar_g_file_set_executable_flags env e).errorOut = none := by
            simp only [GioCopy.thunar_g_file_set_executable_flags, hq]
            rw [if_neg (fun hn => hn hm)]
          rw [hnone]
          rfl
        · rcases hs : env.setAttrResult with _ | code <;> cases e <;>
            · simp only [GioCopy.thunar_g_file_set_executable_flags, hq, hs]
              rw [if_pos hm]
              simp [GioCopy.nativeOnly]

namespace GioCopy

/-- The cancellable-forwarding behaviour of this module as the code exhibits
it: the source type query, the copy calls and the load-contents call receive
the caller's token; the existence checks, the deletes and the rename receive
NULL. -/
def forwardsPolicy (cancellable : Option Nat) : GioCall → Bool
  | GioCall.queryInfo _ c => c == cancellable
  | GioCall.queryExists _ c => c == none
  | GioCall.delete _ c => c == none
  | GioCall.copy _ _ c => c == cancellable
  | GioCall.setDisplayName _ _ c => c == none
  | GioCall.loadContents _ c => c == cancellable

theorem phase_trace_forwards (env : GioEnv) (s d : GioPath.GFilePath)
    (c : Option Nat) (eL : Bool) (e0 : Option GError) (tr0 : List GioCall)
    (h0 : tr0.all (forwardsPolicy c) = true) :
    ((copyToPartialPhase env s d c eL e0 tr0).trace).all (forwardsPolicy c) = true := by
  unfold copyToPartialPhase
  rcases hc : env.copyResult s (partialFileFor d) with _ | code <;>
    rcases hr : env.setDisplayNameResult (partialFileFor d) (destBase d) with _ | code2 <;>
    by_cases hstale : env.queryExists (partialFileFor d) <;>
    simp [hc, hr, hstale, h0, forwardsPolicy]

end GioCopy

set_option maxRecDepth 8192 in
/-- C5 counterexample: with a non-NULL cancellable token (here `some 7`),
`thunar_g_file_copy` on the partial path performs the destination existence
check with a NULL cancellable: the trace holds the query-exists call with
NULL and no query-exists call carrying the token, so the token is not
forwarded to every underlying query, copy and delete call. -/
theorem cancellable_not_forwarded_counterexample :
    GioCopy.GioCall.queryExists ⟨["d"]⟩ none
        ∈ (GioCopy.thunar_g_file_copy GioCopy.witnessEnv ⟨["s"]⟩ ⟨["d"]⟩ ⟨false, false⟩
            true (some 7) true).trace
    ∧ GioCopy.GioCall.queryExists ⟨["d"]⟩ (some 7)
        ∉ (GioCopy.thunar_g_file_copy GioCopy.witnessEnv ⟨["s"]⟩ ⟨["d"]⟩ ⟨false, false⟩
            true (some 7) true).trace := by
  constructor <;> decide

/-- C5 amended: `thunar_g_file_copy` forwards its cancellable token unchanged
to the source type query and to the copy calls but passes NULL to its
existence checks, its deletes and the rename, and
`thunar_g_file_query_key_file` forwards the token unchanged to its single
load-contents call; no other cancellation logic exists in either. -/
theorem cancellable_forwarded_per_call_policy :
    (∀ (env : GioCopy.GioEnv) (s d : GioPath.GFilePath) (fl : GioCopy.CopyFlags)
        (up : Bool) (c : Option Nat) (e : Bool),
      ((GioCopy.thunar_g_file_copy env s d fl up c e).trace).all
          (GioCopy.forwardsPolicy c) = true)
    ∧ (∀ (kenv : GioCopy.KeyFileEnv) (file : GioPath.GFilePath) (c : Option Nat),
        (GioCopy.thunar_g_file_query_key_file kenv file c).trace
          = [GioCopy.GioCall.loadContents file c]) := by
  constructor
  · intro env s d fl up c e
    by_cases hp : GioCopy.g_file_has_parent d
    · cases up with
      | false =>
        rcases hcr : env.copyResult s d with _ | code <;>
          simp [GioCopy.thunar_g_file_copy, hp, hcr, GioCopy.forwardsPolicy]
      | true =>
        cases ht : env.queryInfoType s fl.nofollowSymlinks with
        | none =>
          rcases hcr : env.copyResult s d with _ | code <;>
            simp [GioCopy.thunar_g_file_copy, hp, ht, hcr, GioCopy.forwardsPolicy]
        | some t =>
          cases t with
          | regular =>
            by_cases hq : env.queryExists d
            · by_cases ho : fl.overwrite
              · have hmain : GioCopy.thunar_g_file_copy env s d fl true c e
                    = GioCopy.copyToPartialPhase env s d c false none
                        [GioCopy.GioCall.queryInfo s c,
                         GioCopy.GioCall.queryExists d none,
                         GioCopy.GioCall.delete d none] := by
                  simp [GioCopy.thunar_g_file_copy, hp, ht, hq, ho]
                rw [hmain]
                exact GioCopy.phase_trace_forwards env s d c false none _
                  (by simp [GioCopy.forwardsPolicy])
              · simp [GioCopy.thunar_g_file_copy, hp, ht, hq, ho, GioCopy.forwardsPolicy]
            · have hmain : GioCopy.thunar_g_file_copy env s d fl true c e
                  = GioCopy.copyToPartialPhase env s d c e none
                      [GioCopy.GioCall.queryInfo s c,
                       GioCopy.GioCall.queryExists d none] := by
                simp [GioCopy.thunar_g_file_copy, hp, ht, hq]
              rw [hmain]
              exact GioCopy.phase_trace_forwards env s d c e none _
                (by simp [GioCopy.forwardsPolicy])
          | directory =>
            rcases hcr : env.copyResult s d with _ | code <;>
              simp [GioCopy.thunar_g_file_copy, hp, ht, hcr, GioCopy.forwardsPolicy]
          | symbolicLink =>
            rcases hcr : env.copyResult s d with _ | code <;>
              simp [GioCopy.thunar_g_file_copy, hp, ht, hcr, GioCopy.forwardsPolicy]
          | special =>
            rcases hcr : env.copyResult s d with _ | code <;>
              simp [GioCopy.thunar_g_file_copy, hp, ht, hcr, GioCopy.forwardsPolicy]
    · simp [GioCopy.thunar_g_file_copy, hp]
  · intro kenv file c
    cases hl : kenv.loadContents file with
    | error code => simp [GioCopy.thunar_g_file_query_key_file, hl]
    | ok contents =>
      by_cases hz : contents.length = 0
      · simp [GioCopy.thunar_g_file_query_key_file, hl, hz]
      · cases hparse : kenv.keyFileParse contents with
        | error code => simp [GioCopy.thunar_g_file_query_key_file, hl, hz, hparse]
        | ok u => simp [GioCopy.thunar_g_file_query_key_file, hl, hz, hparse]

namespace GioName

/-- TRUE for a UTF-8 continuation byte. -/
def isCont (b : Nat) : Bool := 0x80 ≤ b && b ≤ 0xBF

/-- GLib `g_utf8_validate` over the raw bytes of a NUL-free C string: standard
UTF-8 validity, rejecting overlong encodings, surrogates and values above
U+10FFFF. -/
def utf8Valid : List Nat → Bool
  | [] => true
  | b :: rest =>
    if b < 0x80 then utf8Valid rest
    else if b < 0xC2 then false
    else if b < 0xE0 then
      match rest with
      | c1 :: r => isCont c1 && utf8Valid r
      | [] => false
    else if b < 0xF0 then
      match rest with
      | c1 :: c2 :: r =>
        (if b = 0xE0 then 0xA0 ≤ c1 && c1 ≤ 0xBF
         else if b = 0xED then 0x80 ≤ c1 && c1 ≤ 0x9F
         else isCont c1) && isCont c2 && utf8Valid r
      | _ => false
    else if b < 0xF5 then
      match rest with
      | c1 :: c2 :: c3 :: r =>
        (if b = 0xF0 then 0x90 ≤ c1 && c1 ≤ 0xBF
         else if b = 0xF4 then 0x80 ≤ c1 && c1 ≤ 0x8F
         else isCont c1) && isCont c2 && isCont c3 && utf8Valid r
      | _ => false
    else false

/-- The byte of an uppercase hexadecimal digit. -/
def hexUpper (n : Nat) : Nat := if n < 10 then 48 + n else 55 + n

/-- A percent-escaped byte: '%' and two uppercase hex digits. -/
def escapeByte (b : Nat) : List Nat := [37, hexUpper (b / 16 % 16), hexUpper (b % 16)]

/-- RFC 3986 unreserved bytes: alphanumerics and "-._~". -/
def isUnreservedByte (b : Nat) : Bool :=
  (65 ≤ b && b ≤ 90) || (97 ≤ b && b ≤ 122) || (48 ≤ b && b ≤ 57)
    || b == 45 || b == 46 || b == 95 || b == 126

/-- The bytes of G_URI_RESERVED_CHARS_ALLOWED_IN_PATH: "!$&'()*+,;=:@" and
"/". -/
def isPathReservedByte (b : Nat) : Bool :=
  b == 33 || b == 36 || b == 38 || b == 39 || b == 40 || b == 41 || b == 42
    || b == 43 || b == 44 || b == 59 || b == 61 || b == 58 || b == 64 || b == 47

/-- Worker for the escape function, structurally recursive on a fuel bound so
that it evaluates by reduction; the fuel never runs out when it starts at the
list length, since every step consumes at least one byte. -/
def uriEscapeGo : Nat → List Nat → List Nat
  | _, [] => []
  | 0, l => l
  | fuel + 1, b :: rest =>
    if b < 0x80 then
      (if isUnreservedByte b || isPathReservedByte b then [b] else escapeByte b)
        ++ uriEscapeGo fuel rest
    else if 0xC2 ≤ b && b < 0xE0 then
      match rest with
      | c1 :: r =>
        if isCont c1 then b :: c1 :: uriEscapeGo fuel r
        else escapeByte b ++ uriEscapeGo fuel (c1 :: r)
      | [] => escapeByte b
    else if 0xE0 ≤ b && b < 0xF0 then
      match rest with
      | c1 :: c2 :: r =>
        if (if b = 0xE0 then 0xA0 ≤ c1 && c1 ≤ 0xBF
            else if b = 0xED then 0x80 ≤ c1 && c1 ≤ 0x9F
            else isCont c1) && isCont c2 then
          b :: c1 :: c2 :: uriEscapeGo fuel r
        else escapeByte b ++ uriEscapeGo fuel (c1 :: c2 :: r)
      | other => escapeByte b ++ uriEscapeGo fuel other
    else if 0xF0 ≤ b && b < 0xF5 then
      match rest with
      | c1 :: c2 :: c3 :: r =>
        if (if b = 0xF0 then 0x90 ≤ c1 && c1 ≤ 0xBF
            else if b = 0xF4 then 0x80 ≤ c1 && c1 ≤ 0x8F
            else isCont c1) && isCont c2 && isCont c3 then
          b :: c1 :: c2 :: c3 :: uriEscapeGo fuel r
        else escapeByte b ++ uriEscapeGo fuel (c1 :: c2 :: c3 :: r)
      | other => escapeByte b ++ uriEscapeGo fuel other
    else escapeByte b ++ uriEscapeGo fuel rest

/-- GLib `g_uri_escape_string (s, G_URI_RESERVED_CHARS_ALLOWED_IN_PATH,
TRUE)` over raw bytes: unreserved and path-reserved ASCII bytes and valid
multibyte UTF-8 sequences pass through, every other byte is
percent-escaped. -/
def uriEscapeBytes (l : List Nat) : List Nat := uriEscapeGo l.length l

/-- The observations `thunar_g_file_get_display_name` makes of a handle: the
raw bytes of `g_file_get_basename` (`none` models NULL) and the handle's URI
(read by `thunar_g_file_is_trash`). -/
structure GFileName where
  baseNameBytes : Option (List Nat)
  uri : String
deriving DecidableEq

/-- The bytes of an ASCII string literal. -/
def stringBytes (s : String) : List Nat := s.toList.map Char.toNat

/-- `thunar_g_file_is_trash` as used here: the handle's URI compared with
"trash:///". -/
def thunar_g_file_is_trash (f : GFileName) : Bool := f.uri == "trash:///"

/-- `thunar_g_file_get_display_name`: the base name, with the localized
"File System" label when the base name is "/" (the byte 47), the localized
"Trash" label when the handle is the trash root, the base name itself when it
is valid UTF-8, and the percent-escaped base name otherwise; "?" when the
base name is NULL. -/
def thunar_g_file_get_display_name (f : GFileName) : List Nat :=
  match f.baseNameBytes with
  | none => stringBytes "?"
  | some base_name =>
    if base_name = [47] then stringBytes "File System"
    else if thunar_g_file_is_trash f then stringBytes "Trash"
    else if utf8Valid base_name then base_name
    else uriEscapeBytes base_name

end GioName

/-- C6: for every handle with a non-NULL base name,
`thunar_g_file_get_display_name` returns the localized "File System" label
when the base name is "/", else the localized "Trash" label when the handle
is the trash root, else the base name verbatim when it is valid UTF-8, and
else the base name with non-UTF-8 bytes percent-encoded. -/
theorem display_name_last_segment_with_special_cases (f : GioName.GFileName)
    (base : List Nat) (hb : f.baseNameBytes = some base) :
    (base = [47] →
      GioName.thunar_g_file_get_display_name f = GioName.stringBytes "File System")
    ∧ (base ≠ [47] → f.uri = "trash:///" →
      GioName.thunar_g_file_get_display_name f = GioName.stringBytes "Trash")
    ∧ (base ≠ [47] → f.uri ≠ "trash:///" → GioName.utf8Valid base = true →
      GioName.thunar_g_file_get_display_name f = base)
    ∧ (base ≠ [47] → f.uri ≠ "trash:///" → GioName.utf8Valid base = false →
      GioName.thunar_g_file_get_display_name f = GioName.uriEscapeBytes base) := by
  refine ⟨?_, ?_, ?_, ?_⟩
  · intro h47
    simp [GioName.thunar_g_file_get_display_name, hb, h47]
  · intro h47 htrash
    simp [GioName.thunar_g_file_get_display_name, GioName.thunar_g_file_is_trash,
      hb, h47, htrash]
  · intro h47 htrash hvalid
    simp [GioName.thunar_g_file_get_display_name, GioName.thunar_g_file_is_trash,
      hb, h47, htrash, hvalid]
  · intro h47 htrash hinvalid
    simp [GioName.thunar_g_file_get_display_name, GioName.thunar_g_file_is_trash,
      hb, h47, htrash, hinvalid]

/-- C6 witness: a handle whose base name bytes are 'f' followed by the
invalid byte 0xFF is displayed as "f%FF": the valid ASCII byte passes
through and the non-UTF-8 byte is percent-encoded. -/
theorem display_name_last_segment_with_special_cases_witness :
    GioName.thunar_g_file_get_display_name
        { baseNameBytes := some [102, 255], uri := "file:///x" }
      = [102, 37, 70, 70] := by
  have h := display_name_last_segment_with_special_cases
      { baseNameBytes := some [102, 255], uri := "file:///x" } [102, 255] rfl
  have h4 := h.2.2.2 (by decide) (by decide) (by decide)
  rw [h4]
  decide

namespace Remote

/-- Index of the first occurrence of `c` in a character list (C `strchr`,
relative to the head; `none` when the character does not occur before the
terminating NUL). -/
def charIdx (c : Char) : List Char → Option Nat
  | [] => none
  | x :: xs =>
    if x = c then some 0
    else
      match charIdx c xs with
      | some j => some (j + 1)
      | none => none

/-- C `strchr (s + i, c)` as an absolute index into `s`. -/
def strchrFrom (s : List Char) (i : Nat) (c : Char) : Option Nat :=
  (charIdx c (s.drop i)).map (i + ·)

/-- The pointer after the loop `while (*p == ':' || *p == '/') ++p;` started
at offset `i` of `s`. -/
def skipColonSlash (s : List Char) (i : Nat) : Nat :=
  i + ((s.drop i).takeWhile (fun c => c = ':' || c = '/')).length

/-- The value of a hexadecimal digit character. -/
def hexVal (c : Char) : Option Nat :=
  if '0' ≤ c ∧ c ≤ '9' then some (c.toNat - 48)
  else if 'A' ≤ c ∧ c ≤ 'F' then some (c.toNat - 55)
  else if 'a' ≤ c ∧ c ≤ 'f' then some (c.toNat - 87)
  else none

/-- Worker for percent-unescaping, structurally recursive on a fuel bound so
that it evaluates by reduction; the fuel never runs out when it starts at the
list length. -/
def uriUnescapeGo : Nat → List Char → List Char
  | _, [] => []
  | 0, l => l
  | fuel + 1, c :: rest =>
    if c = '%' then
      match rest with
      | a :: b :: rest2 =>
        match hexVal a, hexVal b with
        | some x, some y => Char.ofNat (16 * x + y) :: uriUnescapeGo fuel rest2
        | _, _ => '%' :: uriUnescapeGo fuel (a :: b :: rest2)
      | other => '%' :: uriUnescapeGo fuel other
    else c :: uriUnescapeGo fuel rest

/-- GLib `g_uri_unescape_string (path, NULL)` over characters: every
%XY escape becomes the character with that value; a malformed escape is kept
as written (a simplification of the library primitive, shared by the code
translation and the specification reading alike). -/
def uriUnescape (l : List Char) : List Char := uriUnescapeGo l.length l

/-- The condition under which the credential-skip loop advances past a
separator found at (absolute or relative) index `k`:
`(path == NULL || skip < path) && (skip < firstdot)`. -/
def skipOk (pathIdx : Option Nat) (firstdot k : Nat) : Bool :=
  (match pathIdx with
   | none => true
   | some pa => decide (k < pa)) && decide (k < firstdot)

/-- The credential-skipping loop of `thunar_g_file_get_display_name_remote`
(`for (n = 0; ...) { skip = strchr (p, skip_chars[n]); ... }`): with the path
and first-dot indices fixed, advance `p0` past a ':' and then past an '@'
when each stands before the path and before the first dot; when no dot was
found the pointer stays. -/
def credSkipLoop (parseName : List Char) (pathIdx firstdotIdx : Option Nat)
    (p0 : Nat) : Nat :=
  match firstdotIdx with
  | none => p0
  | some fd =>
    let pA :=
      match strchrFrom parseName p0 ':' with
      | some k => if skipOk pathIdx fd k then k + 1 else p0
      | none => p0
    match strchrFrom parseName pA '@' with
    | some k => if skipOk pathIdx fd k then k + 1 else pA
    | none => pA

/-- The body of `thunar_g_file_get_display_name_remote` for a non-native
mount whose parse name starts with its URI scheme, translated statement by
statement with C pointers as absolute indices into the parse name:
skip the scheme and any following ':' and '/', locate the first '/' (the
path) and the first '.', skip past a ':' and then an '@' that stand before
both, then split the host from the path, unescape the path and format
"<path> on <host>". -/
def displayNameRemoteCore (scheme parseName : List Char) : List Char :=
  let p0 := skipColonSlash parseName scheme.length
  let pathIdx := strchrFrom parseName p0 '/'
  let firstdotIdx := strchrFrom parseName p0 '.'
  let p1 := credSkipLoop parseName pathIdx firstdotIdx p0
  match pathIdx with
  | some pa =>
    uriUnescape (parseName.drop pa) ++ (" on ").toList
      ++ (parseName.drop p1).take (pa - p1)
  | none =>
    uriUnescape ['/'] ++ (" on ").toList ++ parseName.drop p1

/-- The observations `thunar_g_file_get_display_name_remote` makes of its
mount point: `g_file_is_native`, `g_file_get_uri_scheme` (`none` models NULL)
and `g_file_get_parse_name`. -/
structure RemoteMount where
  isNative : Bool
  scheme : Option (List Char)
  parseName : List Char

/-- C `g_str_has_prefix`. -/
def gStrStartsWith (s pre : List Char) : Bool := s.take pre.length == pre

/-- `thunar_g_file_get_display_name_remote`: for a non-native mount with a
scheme that prefixes the parse name, derive the name from the parse name;
in every other case fall back to `thunar_g_file_get_display_name
(mount_point)`, whose value is the `fallback` argument here. -/
def thunar_g_file_get_display_name_remote (mp : RemoteMount)
    (fallback : List Char) : List Char :=
  if mp.isNative = false then
    match mp.scheme with
    | some scheme =>
      if gStrStartsWith mp.parseName scheme then displayNameRemoteCore scheme mp.parseName
      else fallback
    | none => fallback
  else fallback

/-- The specification's credential-skipping step, stated on the
scheme-stripped remainder `r`: when a '.' occurs, skip past the first ':'
and then the first following '@' when each stands before the first '/' and
before the first '.'; the result is the offset into `r` where the host
starts. -/
def specCredSkip (r : List Char) : Nat :=
  match charIdx '.' r with
  | none => 0
  | some d =>
    let a :=
      match charIdx ':' r with
      | some k => if skipOk (charIdx '/' r) d k then k + 1 else 0
      | none => 0
    match charIdx '@' (r.drop a) with
    | some k => if skipOk (charIdx '/' r) d (a + k) then a + k + 1 else a
    | none => a

/-- The claim's derivation, stated with list combinators: strip the scheme
and the following ':' and '/' characters, skip the credential part, take the
host up to the first '/', use everything from the first '/' as the path ("/"
when there is none), unescape the path and format "<path> on <host>". -/
def remoteNameOfSpec (scheme parseName : List Char) : List Char :=
  let rest := (parseName.drop scheme.length).dropWhile (fun c => c = ':' || c = '/')
  let host := (rest.drop (specCredSkip rest)).takeWhile (fun c => c != '/')
  let path := if rest.any (fun c => c == '/') then rest.dropWhile (fun c => c != '/') else ['/']
  uriUnescape path ++ (" on ").toList ++ host

end Remote

namespace Remote

theorem drop_length_takeWhile (p : Char → Bool) (l : List Char) :
    l.drop (l.takeWhile p).length = l.dropWhile p := by
  induction l with
  | nil => rfl
  | cons x xs ih =>
    by_cases hp : p x
    · simp [List.takeWhile_cons, List.dropWhile_cons, hp, ih]
    · simp [List.takeWhile_cons, List.dropWhile_cons, hp]

theorem drop_skipColonSlash (s : List Char) (i : Nat) :
    s.drop (skipColonSlash s i)
      = (s.drop i).dropWhile (fun c => c = ':' || c = '/') := by
  rw [skipColonSlash, ← List.drop_drop]
  exact drop_length_takeWhile _ _

theorem charIdx_none_takeWhile (c : Char) (l : List Char) (h : charIdx c l = none) :
    l.takeWhile (fun x => x != c) = l := by
  induction l with
  | nil => rfl
  | cons x xs ih =>
    rw [charIdx] at h
    by_cases hx : x = c
    · rw [if_pos hx] at h
      exact absurd h (by simp)
    · rw [if_neg hx] at h
      cases hxs : charIdx c xs with
      | some j =>
        rw [hxs] at h
        exact absurd h (by simp)
      | none =>
        have hpred : (x != c) = true := by simp [hx]
        simp [List.takeWhile_cons, hpred, ih hxs]

theorem charIdx_none_any (c : Char) (l : List Char) (h : charIdx c l = none) :
    l.any (fun x => x == c) = false := by
  induction l with
  | nil => rfl
  | cons x xs ih =>
    rw [charIdx] at h
    by_cases hx : x = c
    · rw [if_pos hx] at h
      exact absurd h (by simp)
    · rw [if_neg hx] at h
      cases hxs : charIdx c xs with
      | some j =>
        rw [hxs] at h
        exact absurd h (by simp)
      | none =>
        simp [hx, ih hxs]

theorem charIdx_some_any (c : Char) (l : List Char) (j : Nat)
    (h : charIdx c l = some j) : l.any (fun x => x == c) = true := by
  induction l generalizing j with
  | nil => exact absurd h (by simp [charIdx])
  | cons x xs ih =>
    rw [charIdx] at h
    by_cases hx : x = c
    · simp [hx]
    · rw [if_neg hx] at h
      cases hxs : charIdx c xs with
      | some j2 => simp [hx, ih j2 hxs]
      | none =>
        rw [hxs] at h
        exact absurd h (by simp)

theorem charIdx_take (c : Char) (l : List Char) (j : Nat)
    (h : charIdx c l = some j) : l.take j = l.takeWhile (fun x => x != c) := by
  induction l generalizing j with
  | nil => exact absurd h (by simp [charIdx])
  | cons x xs ih =>
    rw [charIdx] at h
    by_cases hx : x = c
    · rw [if_pos hx] at h
      rw [Option.some.injEq] at h
      subst h
      have hpred : (x != c) = false := by simp [hx]
      simp [List.takeWhile_cons, hpred]
    · rw [if_neg hx] at h
      cases hxs : charIdx c xs with
      | some j2 =>
        rw [hxs] at h
        rw [Option.some.injEq] at h
        subst h
        have hpred : (x != c) = true := by simp [hx]
        simp [List.takeWhile_cons, hpred, ih j2 hxs]
      | none =>
        rw [hxs] at h
        exact absurd h (by simp)

theorem charIdx_drop_eq_dropWhile (c : Char) (l : List Char) (j : Nat)
    (h : charIdx c l = some j) : l.drop j = l.dropWhile (fun x => x != c) := by
  induction l generalizing j with
  | nil => exact absurd h (by simp [charIdx])
  | cons x xs ih =>
    rw [charIdx] at h
    by_cases hx : x = c
    · rw [if_pos hx] at h
      rw [Option.some.injEq] at h
      subst h
      have hpred : (x != c) = false := by simp [hx]
      simp [List.dropWhile_cons, hpred]
    · rw [if_neg hx] at h
      cases hxs : charIdx c xs with
      | some j2 =>
        rw [hxs] at h
        rw [Option.some.injEq] at h
        subst h
        have hpred : (x != c) = true := by simp [hx]
        simp [List.dropWhile_cons, hpred, ih j2 hxs]
      | none =>
        rw [hxs] at h
        exact absurd h (by simp)

theorem charIdx_drop_some (c : Char) (l : List Char) (j a : Nat)
    (h : charIdx c l = some j) (ha : a ≤ j) :
    charIdx c (l.drop a) = some (j - a) := by
  induction a generalizing l j with
  | zero => simpa using h
  | succ a2 ih =>
    cases l with
    | nil => exact absurd h (by simp [charIdx])
    | cons x xs =>
      rw [charIdx] at h
      by_cases hx : x = c
      · rw [if_pos hx] at h
        rw [Option.some.injEq] at h
        omega
      · rw [if_neg hx] at h
        cases hxs : charIdx c xs with
        | some j2 =>
          rw [hxs] at h
          rw [Option.some.injEq] at h
          subst h
          rw [List.drop_succ_cons]
          have := ih xs j2 hxs (by omega)
          rw [this]
          congr 1
          omega
        | none =>
          rw [hxs] at h
          exact absurd h (by simp)

theorem charIdx_drop_none (c : Char) (l : List Char) (a : Nat)
    (h : charIdx c l = none) : charIdx c (l.drop a) = none := by
  induction a generalizing l with
  | zero => simpa using h
  | succ a2 ih =>
    cases l with
    | nil => rfl
    | cons x xs =>
      rw [charIdx] at h
      by_cases hx : x = c
      · rw [if_pos hx] at h
        exact absurd h (by simp)
      · rw [if_neg hx] at h
        cases hxs : charIdx c xs with
        | some j =>
          rw [hxs] at h
          exact absurd h (by simp)
        | none =>
          rw [List.drop_succ_cons]
          exact ih xs hxs

theorem skipOk_shift (o : Option Nat) (d m p0 : Nat) :
    skipOk (o.map (p0 + ·)) (p0 + d) (p0 + m) = skipOk o d m := by
  cases o <;> simp [skipOk, Nat.add_lt_add_iff_left]

theorem specCredSkip_le (r : List Char) (sl : Nat)
    (h : charIdx '/' r = some sl) : specCredSkip r ≤ sl := by
  have hstep : ∀ d a : Nat, a ≤ sl →
      (match charIdx '@' (r.drop a) with
        | some k => if skipOk (charIdx '/' r) d (a + k) then a + k + 1 else a
        | none => a) ≤ sl := by
    intro d a hale
    split
    · rename_i k hat
      by_cases hok : skipOk (charIdx '/' r) d (a + k)
      · rw [if_pos hok]
        simp only [skipOk, h, Bool.and_eq_true, decide_eq_true_eq] at hok
        omega
      · rw [if_neg hok]
        exact hale
    · exact hale
  rw [specCredSkip]
  split
  · omega
  · rename_i d hd
    cases hc : charIdx ':' r with
    | none =>
      simp only [hc]
      exact hstep d 0 (by omega)
    | some k =>
      simp only [hc]
      by_cases hok : skipOk (charIdx '/' r) d k
      · rw [if_pos hok]
        have hk1 : k + 1 ≤ sl := by
          simp only [skipOk, h, Bool.and_eq_true, decide_eq_true_eq] at hok
          omega
        exact hstep d (k + 1) hk1
      · rw [if_neg hok]
        exact hstep d 0 (by omega)

end Remote

namespace Remote

theorem credLoop_eq (parseName rest : List Char) (p0 : Nat)
    (hdrop : parseName.drop p0 = rest) :
    credSkipLoop parseName ((charIdx '/' rest).map (p0 + ·))
        ((charIdx '.' rest).map (p0 + ·)) p0
      = p0 + specCredSkip rest := by
  have hstr2 : ∀ (a : Nat) (c : Char),
      strchrFrom parseName (p0 + a) c = (charIdx c (rest.drop a)).map ((p0 + a) + ·) := by
    intro a c
    have hd2 : parseName.drop (p0 + a) = rest.drop a := by
      rw [← List.drop_drop, hdrop]
    rw [strchrFrom, hd2]
  have hstr0 : strchrFrom parseName p0 '@' = (charIdx '@' rest).map (p0 + ·) := by
    rw [strchrFrom, hdrop]
  have hstrc : strchrFrom parseName p0 ':' = (charIdx ':' rest).map (p0 + ·) := by
    rw [strchrFrom, hdrop]
  have hat_step : ∀ d a : Nat,
      (match (charIdx '@' (rest.drop a)).map ((p0 + a) + ·) with
        | some k => if skipOk ((charIdx '/' rest).map (p0 + ·)) (p0 + d) k then k + 1 else p0 + a
        | none => p0 + a)
      = p0 + (match charIdx '@' (rest.drop a) with
              | some k => if skipOk (charIdx '/' rest) d (a + k) then a + k + 1 else a
              | none => a) := by
    intro d a
    cases hat : charIdx '@' (rest.drop a) with
    | none => simp only [Option.map_none']
    | some k2 =>
      simp only [Option.map_some']
      have harg : p0 + a + k2 = p0 + (a + k2) := by omega
      rw [harg, skipOk_shift]
      by_cases hok : skipOk (charIdx '/' rest) d (a + k2)
      · rw [if_pos hok, if_pos hok]
        omega
      · rw [if_neg hok, if_neg hok]
  rw [credSkipLoop.eq_def, specCredSkip]
  cases hdot : charIdx '.' rest with
  | none => simp only [Option.map_none', Nat.add_zero]
  | some d =>
    simp only [Option.map_some']
    rw [hstrc]
    cases hcolon : charIdx ':' rest with
    | none =>
      simp only [Option.map_none']
      rw [hstr0]
      have h := hat_step d 0
      simp only [Nat.add_zero, List.drop_zero, Nat.zero_add] at h ⊢
      rw [h]
    | some k =>
      simp only [Option.map_some']
      rw [skipOk_shift]
      by_cases hok : skipOk (charIdx '/' rest) d k
      · rw [if_pos hok, if_pos hok]
        have hassoc : p0 + k + 1 = p0 + (k + 1) := by omega
        rw [hassoc, hstr2 (k + 1) '@']
        exact hat_step d (k + 1)
      · rw [if_neg hok, if_neg hok]
        rw [hstr0]
        have h := hat_step d 0
        simp only [Nat.add_zero, List.drop_zero, Nat.zero_add] at h ⊢
        rw [h]

theorem core_eq_spec (scheme parseName : List Char) :
    displayNameRemoteCore scheme parseName = remoteNameOfSpec scheme parseName := by
  simp only [displayNameRemoteCore, remoteNameOfSpec]
  set p0 := skipColonSlash parseName scheme.length with hp0
  set rest := (parseName.drop scheme.length).dropWhile (fun c => c = ':' || c = '/') with hrest
  have hdrop : parseName.drop p0 = rest := by
    rw [hp0, hrest]
    exact drop_skipColonSlash parseName scheme.length
  have hstr : ∀ c : Char, strchrFrom parseName p0 c = (charIdx c rest).map (p0 + ·) := by
    intro c
    rw [strchrFrom, hdrop]
  simp only [hstr]
  rw [credLoop_eq parseName rest p0 hdrop]
  have hdropc : parseName.drop (p0 + specCredSkip rest) = rest.drop (specCredSkip rest) := by
    rw [← List.drop_drop, hdrop]
  cases hsl : charIdx '/' rest with
  | none =>
    simp only [Option.map_none']
    rw [hdropc]
    have hany : ¬ (rest.any (fun c => c == '/') = true) := by
      rw [charIdx_none_any '/' rest hsl]
      simp
    rw [if_neg hany]
    rw [charIdx_none_takeWhile '/' (rest.drop (specCredSkip rest))
      (charIdx_drop_none '/' rest (specCredSkip rest) hsl)]
  | some sl =>
    simp only [Option.map_some']
    have hcle : specCredSkip rest ≤ sl := specCredSkip_le rest sl hsl
    have hdropsl : parseName.drop (p0 + sl) = rest.drop sl := by
      rw [← List.drop_drop, hdrop]
    have hsub : p0 + sl - (p0 + specCredSkip rest) = sl - specCredSkip rest := by
      omega
    rw [hdropsl, hdropc, hsub]
    rw [charIdx_drop_eq_dropWhile '/' rest sl hsl]
    rw [if_pos (charIdx_some_any '/' rest sl hsl)]
    rw [charIdx_take '/' (rest.drop (specCredSkip rest)) (sl - specCredSkip rest)
      (charIdx_drop_some '/' rest sl (specCredSkip rest) hsl hcle)]

end Remote

/-- C4: for every non-native mount point whose parse name starts with its URI
scheme, `thunar_g_file_get_display_name_remote` derives the display name
exactly as the specification describes it: strip the scheme prefix and the
following ':' and '/' characters, skip a "user:password@"-style credential
part up to the first '.', split host from path at the first '/' (path "/"
when there is none), percent-unescape the path and format the result as
"<path> on <host>" (`remoteNameOfSpec`, a second definition written from the
spec's words and proved equal to the translated code). -/
theorem remote_display_name_matches_spec (mp : Remote.RemoteMount)
    (fallback scheme : List Char)
    (h1 : mp.isNative = false)
    (h2 : mp.scheme = some scheme)
    (h3 : Remote.gStrStartsWith mp.parseName scheme = true) :
    Remote.thunar_g_file_get_display_name_remote mp fallback
      = Remote.remoteNameOfSpec scheme mp.parseName := by
  simp only [Remote.thunar_g_file_get_display_name_remote, h1, h2, h3, if_true]
  exact Remote.core_eq_spec scheme mp.parseName

set_option maxRecDepth 16384 in
/-- C4 witness: the theorem applied to the concrete non-native mount with
scheme "ftp" and parse name "ftp://user@host.com/a%20b": the credential part
"user@" is skipped, the host is "host.com", the path "/a%20b" unescapes to
"/a b", and the display name is "/a b on host.com". -/
theorem remote_display_name_matches_spec_witness :
    Remote.thunar_g_file_get_display_name_remote
        { isNative := false, scheme := some ("ftp".toList),
          parseName := ("ftp://user@host.com/a%20b".toList) } []
      = ("/a b on host.com".toList) := by
  have h := remote_display_name_matches_spec
      { isNative := false, scheme := some ("ftp".toList),
        parseName := ("ftp://user@host.com/a%20b".toList) } [] ("ftp".toList)
      rfl rfl (by decide)
  rw [h]
  decide
